import Mathlib

/-!
Verification development for the `ndimage` 2D image core
(`src/core/image2d.rs` together with the pixel/region contracts of
`src/traits.rs`).

The buffer type `Image2DRepr<D, P>` is one generic implementation shared by
the three storage kinds (owned, view, mutable view); the storage parameter
`D` only selects the memory representation, never the algorithm, so the
model below uses a single structure `Image2D` holding the logical row-major
grid (width, height, flat pixel list).  `ndarray`'s row-major layout stores
cell `(x, y)` at flat index `y * width + x`.

Machine integers (`u32`, `usize`) are modelled as `Nat`; the `i64`
arithmetic of `translate_rect` is modelled as `Int` (no overflow is
reachable there since all inputs fit in `i64`).  Fallible operations
return `Except`; operations that can also hit a documented panic
(`Pixel::from_slice` on a short slice) return a `RunResult` with a
distinguished `fault` outcome.
-/

namespace Ndimage

/-- Modelled from the spec: the `Rect` type itself is not under `src/`
(only its callers are).  Spec section 3: `{left, top, width, height}` in
unsigned grid coordinates; derived `right = left + width - 1`,
`bottom = top + height - 1` for non-empty rects. -/
structure Rect where
  left : Nat
  top : Nat
  width : Nat
  height : Nat
deriving DecidableEq, Repr

/-- Modelled from the spec: `right = left + width - 1` (non-empty rects). -/
def Rect.right (r : Rect) : Nat := r.left + r.width - 1

/-- Modelled from the spec: `bottom = top + height - 1` (non-empty rects). -/
def Rect.bottom (r : Rect) : Nat := r.top + r.height - 1

/-- Modelled from the spec: `size() -> (w, h)`. -/
def Rect.size (r : Rect) : Nat × Nat := (r.width, r.height)

/-- Modelled from the spec: `contains(x, y)` tests against
`[left, right] × [top, bottom]`. -/
def Rect.contains (r : Rect) (x y : Nat) : Prop :=
  r.left ≤ x ∧ x ≤ r.right ∧ r.top ≤ y ∧ y ≤ r.bottom

instance (r : Rect) (x y : Nat) : Decidable (r.contains x y) := by
  unfold Rect.contains; infer_instance

/-- Logical content of `Image2DRepr`: a row-major grid of pixels.
`buffer: ArrayBase<D, Ix2>` with shape `(height, width)`; cell `(x, y)`
lives at flat index `y * width + x`. -/
structure Image2D (P : Type) where
  width : Nat
  height : Nat
  data : List P
deriving DecidableEq, Repr

/-- Shape invariant maintained by every constructor of the crate:
the backing storage holds exactly `height * width` elements. -/
def Image2D.wf {P : Type} (img : Image2D P) : Prop :=
  img.data.length = img.height * img.width

instance {P : Type} (img : Image2D P) : Decidable img.wf := by
  unfold Image2D.wf; infer_instance

/-- Source `dimensions`: the `(width, height)` pair. -/
def Image2D.dimensions {P : Type} (img : Image2D P) : Nat × Nat :=
  (img.width, img.height)

/-- Modelled from the spec: `fits_image(img)` is true iff the rect lies
entirely within the image's `[0, width) × [0, height)` (the `Rect`
implementation is not under `src/`). -/
def Rect.fitsImage {P : Type} (r : Rect) (img : Image2D P) : Prop :=
  r.left + r.width ≤ img.width ∧ r.top + r.height ≤ img.height

instance {P : Type} (r : Rect) (img : Image2D P) : Decidable (r.fitsImage img) := by
  unfold Rect.fitsImage; infer_instance

/-- Source `get_pixel(x, y)`: bounds-checked access `buffer[[y, x]]`;
`none` models the out-of-bounds panic. -/
def Image2D.getPixel? {P : Type} (img : Image2D P) (x y : Nat) : Option P :=
  if x < img.width ∧ y < img.height then img.data[y * img.width + x]? else none

/-- Total variant of `get_pixel` for contexts where the access is known to
be in bounds (the defaulted branch is never reached there). -/
def Image2D.getPixel! {P : Type} [Inhabited P] (img : Image2D P) (x y : Nat) : P :=
  (img.getPixel? x y).getD default

/-- Source `put_pixel(x, y, pixel)`: `buffer[[y, x]] = pixel`.  All uses
below are in bounds (the source panics out of bounds). -/
def Image2D.putPixel {P : Type} (img : Image2D P) (x y : Nat) (p : P) : Image2D P :=
  ⟨img.width, img.height, img.data.set (y * img.width + x) p⟩

/-- Row-major enumeration `g x y` for `y < H` rows (scanline order) and
`x < W` columns, matching `ndarray`'s standard-order iteration. -/
def grid {α : Type} (W H : Nat) (g : Nat → Nat → α) : List α :=
  (List.range H).flatMap (fun y => (List.range W).map (fun x => g x y))

/-- Source `rect_iter` coordinate stream: slicing
`s![top..top+height, left..left+width]` and iterating in standard
(row-major) order visits the absolute coordinates below, scanline order. -/
def rectCoords (r : Rect) : List (Nat × Nat) :=
  grid r.width r.height (fun lx ly => (r.left + lx, r.top + ly))

/-- Source `rect_iter(rect)`: the pixels of `rect` in scanline order. -/
def Image2D.rectIter {P : Type} [Inhabited P] (img : Image2D P) (r : Rect) : List P :=
  (rectCoords r).map (fun c => img.getPixel! c.1 c.2)

/-- Source `iter()` / the whole-buffer scanline reading of an image:
every cell visited through `get_pixel` in row-major order. -/
def Image2D.scanlineList {P : Type} [Inhabited P] (img : Image2D P) : List P :=
  grid img.width img.height (fun x y => img.getPixel! x y)

/-- Sequence of single-cell writes `((x, y), value)` applied through
`put_pixel` in order (models a run of a mutable iterator writing cells). -/
def writeList {P : Type} (img : Image2D P) (ws : List ((Nat × Nat) × P)) : Image2D P :=
  ws.foldl (fun d e => d.putPixel e.1.1 e.1.2 e.2) img

/-- Source `PartialEq for Image2DRepr`:
`self.dimensions() == other.dimensions() && self.iter().eq(other.iter())`.
The whole-buffer iterator yields the row-major cell list, so the second
conjunct is elementwise equality of the flat data. -/
def imageEq {P : Type} (a b : Image2D P) : Prop :=
  a.dimensions = b.dimensions ∧ a.data = b.data

/-- Source `impl_image_op` (one instance per operator and storage-kind
pairing, all with the same body): check `dimensions()` equality, then
apply the operator cellwise via `ndarray`'s elementwise arithmetic. -/
def imageOp {P : Type} (op : P → P → P) (a b : Image2D P) : Except String (Image2D P) :=
  if a.dimensions ≠ b.dimensions then Except.error "Image dimensions do not match"
  else Except.ok ⟨a.width, a.height, List.zipWith op a.data b.data⟩

/-- Source `ImageBuffer2D::new(width, height)`: `Array2::zeros((h, w))`,
with the pixel zero passed explicitly. -/
def Image2D.new {P : Type} (w h : Nat) (z : P) : Image2D P :=
  ⟨w, h, List.replicate (h * w) z⟩

/-- Source `into_raw_vec`: the raw underlying storage. -/
def Image2D.intoRawVec {P : Type} (img : Image2D P) : List P :=
  img.data

/-- Source `from_vec(w, h, v)`: `Array2::from_shape_vec((h, w), v)`, which
succeeds iff `v.len() == h * w` and keeps `v` as the row-major storage. -/
def fromVec {P : Type} (w h : Nat) (v : List P) : Except String (Image2D P) :=
  if v.length = h * w then Except.ok ⟨w, h, v⟩
  else Except.error "Invalid dimensions"

/-- Source `generate(w, h, f)`:
`Array2::from_shape_fn(Ix2(h, w), |(y, x)| f((x, y)))`, i.e. the cell at
`(x, y)` holds `f x y`. -/
def generate {P : Type} (w h : Nat) (f : Nat → Nat → P) : Image2D P :=
  ⟨w, h, grid w h (fun x y => f x y)⟩

/-- Source `sub_image(rect)`: the view obtained by slicing rows
`top ..= bottom` and columns `left ..= right`, materialised as its logical
grid content. -/
def Image2D.subImage {P : Type} [Inhabited P] (img : Image2D P) (r : Rect) : Image2D P :=
  ⟨r.right + 1 - r.left, r.bottom + 1 - r.top,
    grid (r.right + 1 - r.left) (r.bottom + 1 - r.top)
      (fun lx ly => img.getPixel! (r.left + lx) (r.top + ly))⟩

/-- Source `sub_image_mut(rect)` write path: the mutable view shares the
parent's storage, and the strided slice maps the view's cell `(lx, ly)` to
parent flat offset `(top + ly) * width + (left + lx)`. -/
def Image2D.subImageMutPut {P : Type} (img : Image2D P) (r : Rect) (lx ly : Nat)
    (p : P) : Image2D P :=
  ⟨img.width, img.height,
    img.data.set ((r.top + ly) * img.width + (r.left + lx)) p⟩

/-- Sequence of writes performed through one mutable sub-image view, local
coordinates paired with the stored values. -/
def Image2D.subImageMutRun {P : Type} (img : Image2D P) (r : Rect)
    (ws : List ((Nat × Nat) × P)) : Image2D P :=
  ws.foldl (fun d e => d.subImageMutPut r e.1.1 e.1.2 e.2) img

/-- Source `blit_rect(src_rect, dst_rect, img)`: bail on size mismatch,
then on either rect not fitting its image, then copy by zipping
`img.rect_iter(src_rect)` with `self.rect_iter_mut(dst_rect)` and
assigning pairwise.  The first component is the returned `Result`, the
second the destination image afterwards. -/
def blitRect {P : Type} [Inhabited P] (dst : Image2D P) (srcRect dstRect : Rect)
    (img : Image2D P) : Except String Unit × Image2D P :=
  if srcRect.size ≠ dstRect.size then
    (Except.error "Rects are not the same size.", dst)
  else if ¬ srcRect.fitsImage img then
    (Except.error "Source rect does not fit source image.", dst)
  else if ¬ dstRect.fitsImage dst then
    (Except.error "Source rect does not fit destination image.", dst)
  else
    (Except.ok (),
      writeList dst (((img.rectIter srcRect).zip (rectCoords dstRect)).map
        (fun sd => (sd.2, sd.1))))

/-- Source `translate_rect(rect, x, y)` on an image of dimensions
`(w, h)`: `i64` arithmetic on the corner coordinates, early `None` when
the moved rect misses the image, otherwise clamp-and-clip exactly as in
the source. -/
def translateRect (w h : Nat) (r : Rect) (dx dy : Int) : Option Rect :=
  let left : Int := (r.left : Int) + dx
  let top : Int := (r.top : Int) + dy
  let right : Int := (r.right : Int) + dx
  let bottom : Int := (r.bottom : Int) + dy
  let wS : Int := (w : Int)
  let hS : Int := (h : Int)
  if left < wS ∧ top < hS ∧ right ≥ 0 ∧ bottom ≥ 0 then
    let xLeft : Nat := if left < 0 then 0 else left.toNat
    let yTop : Nat := if top < 0 then 0 else top.toNat
    some ⟨xLeft, yTop, (min wS (right + 1)).toNat - xLeft,
      (min hS (bottom + 1)).toNat - yTop⟩
  else
    none

/-- Translated-rect/image intersection, for stating the clipping claim:
some cell coordinate lies both in the moved rect and in the image bounds. -/
def rectIntersects (w h : Nat) (r : Rect) (dx dy : Int) : Prop :=
  ∃ px py : Int,
    (r.left : Int) + dx ≤ px ∧ px ≤ (r.right : Int) + dx ∧
    (r.top : Int) + dy ≤ py ∧ py ≤ (r.bottom : Int) + dy ∧
    0 ≤ px ∧ px < (w : Int) ∧ 0 ≤ py ∧ py < (h : Int)

/-- Clipped intersection of the translated rectangle with the image
bounds, written from the spec's description of the success value. -/
def clippedRect (w h : Nat) (r : Rect) (dx dy : Int) : Rect :=
  let l : Int := max ((r.left : Int) + dx) 0
  let t : Int := max ((r.top : Int) + dy) 0
  let rr : Int := min ((r.right : Int) + dx) ((w : Int) - 1)
  let bb : Int := min ((r.bottom : Int) + dy) ((h : Int) - 1)
  ⟨l.toNat, t.toNat, (rr + 1 - l).toNat, (bb + 1 - t).toNat⟩

/-- Outcome of running code that may return `Ok`, return a recoverable
`Err`, or hit a panic (`fault`). -/
inductive RunResult (α : Type) where
  | ok (a : α)
  | err
  | fault
deriving DecidableEq, Repr

/-- Source `Pixel::from_slice` contract (src/traits.rs): the slice length
is not checked, the call panics when `s.len()` is below the channel
count; otherwise the pixel is built from the first `n` channels.  Pixels
are modelled as their channel lists. -/
def pixFromSlice {α : Type} (n : Nat) (s : List α) : RunResult (List α) :=
  if s.length < n then RunResult.fault else RunResult.ok (s.take n)

/-- Fuel-driven model of `slice::chunks(n)`: chunks of `n` elements in
order, the final chunk possibly shorter.  The fuel (always instantiated
with the list length) only serves structural termination. -/
def chunksGo {α : Type} (fuel n : Nat) (l : List α) : List (List α) :=
  match fuel, l with
  | 0, _ => []
  | _ + 1, [] => []
  | fuel' + 1, a :: l' =>
    if n = 0 then [] else (a :: l').take n :: chunksGo fuel' n ((a :: l').drop n)

/-- Source `v.chunks(P::N_CHANNELS)` as a list of chunks. -/
def chunksN {α : Type} (n : Nat) (l : List α) : List (List α) :=
  chunksGo l.length n l

/-- Effectful map propagating the first panic, as in a sequential loop
over an iterator. -/
def mapRun {α β : Type} (f : α → RunResult β) : List α → RunResult (List β)
  | [] => RunResult.ok []
  | a :: l =>
    match f a with
    | RunResult.ok b =>
      match mapRun f l with
      | RunResult.ok bs => RunResult.ok (b :: bs)
      | RunResult.err => RunResult.err
      | RunResult.fault => RunResult.fault
    | RunResult.err => RunResult.err
    | RunResult.fault => RunResult.fault

/-- Source `from_raw_vec(w, h, v)` for a pixel type with `n` channels:
chunk the raw values, `ensure!` that the chunk count equals `w * h`
(recoverable error otherwise), build each pixel through
`P::from_slice` (which panics on a short final chunk), and finish with
`Array2::from_shape_vec((h, w), pixels)`. -/
def fromRawVec {α : Type} (n w h : Nat) (v : List α) : RunResult (Image2D (List α)) :=
  if (chunksN n v).length = w * h then
    match mapRun (pixFromSlice n) (chunksN n v) with
    | RunResult.ok pixels =>
      if pixels.length = h * w then RunResult.ok ⟨w, h, pixels⟩ else RunResult.err
    | RunResult.err => RunResult.err
    | RunResult.fault => RunResult.fault
  else
    RunResult.err

/-! Helper lemmas about row-major flat indexing and `grid`. -/

theorem flat_lt {W H x y : Nat} (hx : x < W) (hy : y < H) : y * W + x < H * W := by
  calc y * W + x < y * W + W := by omega
    _ = (y + 1) * W := (Nat.succ_mul y W).symm
    _ ≤ H * W := Nat.mul_le_mul_right W hy

theorem flat_inj {W x y x' y' : Nat} (hx : x < W) (hx' : x' < W)
    (h : y * W + x = y' * W + x') : x = x' ∧ y = y' := by
  rcases Nat.lt_trichotomy y y' with hlt | heq | hgt
  · have : (y + 1) * W ≤ y' * W := Nat.mul_le_mul_right W hlt
    rw [Nat.succ_mul] at this
    omega
  · subst heq
    omega
  · have : (y' + 1) * W ≤ y * W := Nat.mul_le_mul_right W hgt
    rw [Nat.succ_mul] at this
    omega

theorem flat_ne {W x y x' y' : Nat} (hx : x < W) (hx' : x' < W)
    (h : (x, y) ≠ (x', y')) : y * W + x ≠ y' * W + x' := by
  intro he
  rcases flat_inj hx hx' he with ⟨h1, h2⟩
  exact h (by rw [h1, h2])

theorem grid_zero {α : Type} (W : Nat) (g : Nat → Nat → α) : grid W 0 g = [] := by
  simp [grid]

theorem grid_succ {α : Type} (W H : Nat) (g : Nat → Nat → α) :
    grid W (H + 1) g = grid W H g ++ (List.range W).map (fun x => g x H) := by
  simp [grid, List.range_succ]

theorem grid_length {α : Type} (W H : Nat) (g : Nat → Nat → α) :
    (grid W H g).length = H * W := by
  induction H with
  | zero => simp [grid_zero]
  | succ H ih => simp [grid_succ, ih, Nat.succ_mul]

theorem grid_getElem? {α : Type} {W H x y : Nat} (g : Nat → Nat → α)
    (hx : x < W) (hy : y < H) : (grid W H g)[y * W + x]? = some (g x y) := by
  induction H with
  | zero => omega
  | succ H ih =>
    rw [grid_succ]
    by_cases hyH : y < H
    · rw [List.getElem?_append_left (by rw [grid_length]; exact flat_lt hx hyH)]
      exact ih hyH
    · have hyE : y = H := by omega
      subst hyE
      rw [List.getElem?_append_right (by rw [grid_length]; omega)]
      rw [grid_length, Nat.add_sub_cancel_left, List.getElem?_map,
        List.getElem?_range hx]
      rfl

theorem grid_mem {α : Type} {W H : Nat} {g : Nat → Nat → α} {a : α} :
    a ∈ grid W H g ↔ ∃ x y, x < W ∧ y < H ∧ a = g x y := by
  constructor
  · intro h
    rw [grid, List.mem_flatMap] at h
    rcases h with ⟨y, hy, hmap⟩
    rw [List.mem_map] at hmap
    rcases hmap with ⟨x, hx, he⟩
    exact ⟨x, y, List.mem_range.mp hx, List.mem_range.mp hy, he.symm⟩
  · rintro ⟨x, y, hx, hy, rfl⟩
    rw [grid, List.mem_flatMap]
    exact ⟨y, List.mem_range.mpr hy, List.mem_map.mpr ⟨x, List.mem_range.mpr hx, rfl⟩⟩

theorem grid_nodup {α : Type} {W H : Nat} {g : Nat → Nat → α}
    (hinj : ∀ x y x' y', x < W → y < H → x' < W → y' < H →
      g x y = g x' y' → x = x' ∧ y = y') : (grid W H g).Nodup := by
  rw [grid, List.nodup_flatMap]
  constructor
  · intro y hy
    rw [List.mem_range] at hy
    refine List.Nodup.map_on ?_ (List.nodup_range W)
    intro x hx x' hx' he
    exact (hinj x y x' y (List.mem_range.mp hx) hy (List.mem_range.mp hx') hy he).1
  · have hp : (List.range H).Pairwise (· < ·) := List.pairwise_lt_range H
    refine hp.imp_of_mem ?_
    intro y y' hy hy' hlt a ha ha'
    rw [List.mem_map] at ha ha'
    rcases ha with ⟨x, hx, rfl⟩
    rcases ha' with ⟨x', hx', he⟩
    have := (hinj x' y' x y (List.mem_range.mp hx') (List.mem_range.mp hy')
      (List.mem_range.mp hx) (List.mem_range.mp hy) he).2
    omega

/-! Helper lemmas about `put_pixel`, `get_pixel` and write sequences. -/

theorem putPixel_width {P : Type} (img : Image2D P) (x y : Nat) (p : P) :
    (img.putPixel x y p).width = img.width := rfl

theorem putPixel_height {P : Type} (img : Image2D P) (x y : Nat) (p : P) :
    (img.putPixel x y p).height = img.height := rfl

theorem putPixel_wf {P : Type} {img : Image2D P} (x y : Nat) (p : P)
    (hwf : img.wf) : (img.putPixel x y p).wf := by
  simpa [Image2D.wf, Image2D.putPixel] using hwf

theorem getPixel?_putPixel_self {P : Type} {img : Image2D P} {x y : Nat} (p : P)
    (hwf : img.wf) (hx : x < img.width) (hy : y < img.height) :
    (img.putPixel x y p).getPixel? x y = some p := by
  simp only [Image2D.getPixel?, Image2D.putPixel]
  rw [if_pos ⟨hx, hy⟩]
  exact List.getElem?_set_self (by rw [hwf]; exact flat_lt hx hy)

theorem getPixel?_putPixel_ne {P : Type} {img : Image2D P} {x y x' y' : Nat} (p : P)
    (hx : x < img.width) (hx' : x' < img.width)
    (hne : (x', y') ≠ (x, y)) :
    (img.putPixel x y p).getPixel? x' y' = img.getPixel? x' y' := by
  simp only [Image2D.getPixel?, Image2D.putPixel]
  by_cases hb : x' < img.width ∧ y' < img.height
  · rw [if_pos hb, if_pos hb]
    exact List.getElem?_set_ne (flat_ne hx' hx hne).symm
  · rw [if_neg hb, if_neg hb]

theorem writeList_width {P : Type} (img : Image2D P) (ws : List ((Nat × Nat) × P)) :
    (writeList img ws).width = img.width := by
  induction ws generalizing img with
  | nil => rfl
  | cons e ws ih => exact ih (img.putPixel e.1.1 e.1.2 e.2)

theorem writeList_height {P : Type} (img : Image2D P) (ws : List ((Nat × Nat) × P)) :
    (writeList img ws).height = img.height := by
  induction ws generalizing img with
  | nil => rfl
  | cons e ws ih => exact ih (img.putPixel e.1.1 e.1.2 e.2)

theorem writeList_wf {P : Type} {img : Image2D P} (ws : List ((Nat × Nat) × P))
    (hwf : img.wf) : (writeList img ws).wf := by
  induction ws generalizing img with
  | nil => exact hwf
  | cons e ws ih => exact ih (putPixel_wf _ _ _ hwf)

theorem writeList_frame {P : Type} {img : Image2D P} {x y : Nat}
    (ws : List ((Nat × Nat) × P))
    (hx : x < img.width)
    (hws : ∀ e ∈ ws, e.1.1 < img.width ∧ e.1.2 < img.height ∧ e.1 ≠ (x, y)) :
    (writeList img ws).getPixel? x y = img.getPixel? x y := by
  induction ws generalizing img with
  | nil => rfl
  | cons e ws ih =>
    rcases hws e (List.mem_cons_self e ws) with ⟨he1, _, he3⟩
    have step : (writeList (img.putPixel e.1.1 e.1.2 e.2) ws).getPixel? x y
        = (img.putPixel e.1.1 e.1.2 e.2).getPixel? x y := by
      refine ih hx ?_
      intro e' he'
      exact hws e' (List.mem_cons_of_mem e he')
    calc (writeList img (e :: ws)).getPixel? x y
        = (img.putPixel e.1.1 e.1.2 e.2).getPixel? x y := step
      _ = img.getPixel? x y := by
          refine getPixel?_putPixel_ne e.2 he1 hx ?_
          intro hcon
          exact he3 hcon.symm

theorem writeList_getPixel {P : Type} {img : Image2D P} {c : Nat × Nat} {v : P}
    (ws : List ((Nat × Nat) × P)) (hwf : img.wf)
    (hnd : (ws.map Prod.fst).Nodup)
    (hin : ∀ e ∈ ws, e.1.1 < img.width ∧ e.1.2 < img.height)
    (hmem : (c, v) ∈ ws) :
    (writeList img ws).getPixel? c.1 c.2 = some v := by
  induction ws generalizing img with
  | nil => cases hmem
  | cons e ws ih =>
    rcases List.mem_cons.mp hmem with heq | htail
    · have hc : e = (c, v) := heq.symm
      subst hc
      have hframe : (writeList (img.putPixel c.1 c.2 v) ws).getPixel? c.1 c.2
          = (img.putPixel c.1 c.2 v).getPixel? c.1 c.2 := by
        refine writeList_frame ws ?_ ?_
        · exact (hin (c, v) (List.mem_cons_self _ _)).1
        · intro e' he'
          rcases hin e' (List.mem_cons_of_mem _ he') with ⟨hb1, hb2⟩
          refine ⟨hb1, hb2, ?_⟩
          intro hcon
          have : c ∈ ws.map Prod.fst := by
            rw [List.mem_map]
            exact ⟨e', he', by rw [hcon]⟩
          exact (List.nodup_cons.mp hnd).1 this
      rw [writeList]
      show (writeList (img.putPixel c.1 c.2 v) ws).getPixel? c.1 c.2 = some v
      rw [hframe]
      exact getPixel?_putPixel_self v hwf (hin (c, v) (List.mem_cons_self _ _)).1
        (hin (c, v) (List.mem_cons_self _ _)).2
    · refine ih (putPixel_wf _ _ _ hwf) (List.nodup_cons.mp hnd).2 ?_ htail
      intro e' he'
      exact hin e' (List.mem_cons_of_mem _ he')

/-! Helper lemmas connecting `get_pixel` with the flat storage. -/

theorem getPixel?_eq_getElem {P : Type} {img : Image2D P} {x y : Nat}
    (hx : x < img.width) (hy : y < img.height)
    (hlt : y * img.width + x < img.data.length) :
    img.getPixel? x y = some (img.data.get ⟨y * img.width + x, hlt⟩) := by
  rw [Image2D.getPixel?, if_pos ⟨hx, hy⟩, List.getElem?_eq_getElem hlt]
  rfl

theorem getPixel?_is_some {P : Type} {img : Image2D P} {x y : Nat}
    (hwf : img.wf) (hx : x < img.width) (hy : y < img.height) :
    ∃ p, img.getPixel? x y = some p := by
  have hlt : y * img.width + x < img.data.length := by
    rw [hwf]; exact flat_lt hx hy
  exact ⟨_, getPixel?_eq_getElem hx hy hlt⟩

theorem getPixel!_eq {P : Type} [Inhabited P] {img : Image2D P} {x y : Nat} {p : P}
    (h : img.getPixel? x y = some p) : img.getPixel! x y = p := by
  rw [Image2D.getPixel!, h]
  rfl

theorem scanlineList_eq_data {P : Type} [Inhabited P] {img : Image2D P}
    (hwf : img.wf) : img.scanlineList = img.data := by
  refine List.ext_getElem? (fun n => ?_)
  rw [Image2D.scanlineList]
  by_cases hn : n < img.height * img.width
  · have hW : 0 < img.width := by
      by_contra h0
      have h0' : img.width = 0 := by omega
      rw [h0', Nat.mul_zero] at hn
      omega
    have hx : n % img.width < img.width := Nat.mod_lt _ hW
    have hy : n / img.width < img.height := (Nat.div_lt_iff_lt_mul hW).mpr hn
    have hflat : n / img.width * img.width + n % img.width = n := by
      rw [Nat.mul_comm]
      exact Nat.div_add_mod n img.width
    have hlt : n / img.width * img.width + n % img.width < img.data.length := by
      rw [hwf]; exact flat_lt hx hy
    rw [← hflat, grid_getElem? _ hx hy, List.getElem?_eq_getElem hlt]
    rw [getPixel!_eq (getPixel?_eq_getElem hx hy hlt)]
    rfl
  · have h1 : (grid img.width img.height (fun x y => img.getPixel! x y)).length ≤ n := by
      rw [grid_length]; omega
    have h2 : img.data.length ≤ n := by rw [hwf]; omega
    rw [List.getElem?_eq_none h1, List.getElem?_eq_none h2]

theorem zip_getElem?_eq_some {α β : Type} {l₁ : List α} {l₂ : List β}
    {i : Nat} {a : α} {b : β} (h1 : l₁[i]? = some a) (h2 : l₂[i]? = some b) :
    (l₁.zip l₂)[i]? = some (a, b) := by
  rw [List.zip_eq_zipWith, List.getElem?_zipWith, h1, h2]

/-! Claim theorems. -/

/-- C10: after `put_pixel(x, y, p)` at in-bounds `(x, y)`, `get_pixel(x, y)`
returns `p`, and `get_pixel` at every other in-bounds coordinate returns
the value it returned before the write. -/
theorem putPixel_get_claim {P : Type} (img : Image2D P) (x y : Nat) (p : P)
    (hwf : img.wf) (hx : x < img.width) (hy : y < img.height) :
    (img.putPixel x y p).getPixel? x y = some p ∧
    ∀ x' y', x' < img.width → y' < img.height → (x', y') ≠ (x, y) →
      (img.putPixel x y p).getPixel? x' y' = img.getPixel? x' y' := by
  refine ⟨getPixel?_putPixel_self p hwf hx hy, ?_⟩
  intro x' y' hx' hy' hne
  exact getPixel?_putPixel_ne p hx hx' hne

theorem putPixel_get_claim_witness :
    ((Image2D.mk 2 2 [10, 20, 30, 40]).putPixel 1 0 99).getPixel? 1 0 = some 99 ∧
    ((Image2D.mk 2 2 [10, 20, 30, 40]).putPixel 1 0 99).getPixel? 0 1
      = (Image2D.mk 2 2 [10, 20, 30, 40]).getPixel? 0 1 :=
  ⟨(putPixel_get_claim (Image2D.mk 2 2 [10, 20, 30, 40]) 1 0 99 (by decide)
      (by decide) (by decide)).1,
    (putPixel_get_claim (Image2D.mk 2 2 [10, 20, 30, 40]) 1 0 99 (by decide)
      (by decide) (by decide)).2 0 1 (by decide) (by decide) (by decide)⟩

/-- C4: two buffers are equal under the code's `PartialEq` iff their
`dimensions()` agree and all corresponding cells agree in scanline
order. -/
theorem image_eq_claim {P : Type} (a b : Image2D P) (hwa : a.wf) (hwb : b.wf) :
    imageEq a b ↔ (a.dimensions = b.dimensions ∧
      ∀ x, x < a.width → ∀ y, y < a.height → a.getPixel? x y = b.getPixel? x y) := by
  have hw : a.dimensions = b.dimensions → a.width = b.width := fun hd =>
    congrArg Prod.fst hd
  have hh : a.dimensions = b.dimensions → a.height = b.height := fun hd =>
    congrArg Prod.snd hd
  constructor
  · rintro ⟨hd, hdata⟩
    refine ⟨hd, ?_⟩
    intro x hx y hy
    rw [Image2D.getPixel?, Image2D.getPixel?, ← hw hd, ← hh hd, hdata]
  · rintro ⟨hd, hpw⟩
    refine ⟨hd, ?_⟩
    refine List.ext_getElem? (fun n => ?_)
    by_cases hn : n < a.height * a.width
    · have hW : 0 < a.width := by
        by_contra h0
        have h0' : a.width = 0 := by omega
        rw [h0', Nat.mul_zero] at hn
        omega
      have hx : n % a.width < a.width := Nat.mod_lt _ hW
      have hy : n / a.width < a.height := (Nat.div_lt_iff_lt_mul hW).mpr hn
      have hflat : n / a.width * a.width + n % a.width = n := by
        rw [Nat.mul_comm]
        exact Nat.div_add_mod n a.width
      have hcell := hpw (n % a.width) hx (n / a.width) hy
      rw [Image2D.getPixel?, Image2D.getPixel?, if_pos ⟨hx, hy⟩,
        if_pos ⟨by rw [← hw hd]; exact hx, by rw [← hh hd]; exact hy⟩,
        ← hw hd, hflat] at hcell
      exact hcell
    · rw [List.getElem?_eq_none (by rw [hwa]; omega),
        List.getElem?_eq_none (by rw [hwb, ← hw hd, ← hh hd]; omega)]

theorem image_eq_claim_witness :
    imageEq (Image2D.mk 2 2 [1, 2, 3, 4]) (Image2D.mk 2 2 [1, 2, 3, 4]) :=
  (image_eq_claim (Image2D.mk 2 2 [1, 2, 3, 4]) (Image2D.mk 2 2 [1, 2, 3, 4])
    (by decide) (by decide)).mpr (by decide)

/-- C6: `from_vec(w, h, v)` succeeds exactly when `v` has length `w * h`,
and then reading the constructed buffer in scanline order (and its raw
storage) reproduces `v`; a mismatched length yields an error, never an
`Ok` value. -/
theorem from_vec_claim {P : Type} [Inhabited P] (w h : Nat) (v : List P) :
    (v.length = w * h →
      ∃ img : Image2D P, fromVec w h v = Except.ok img ∧ img.wf ∧
        img.dimensions = (w, h) ∧ img.scanlineList = v ∧ img.intoRawVec = v) ∧
    (v.length ≠ w * h → ∀ img, fromVec w h v ≠ Except.ok img) := by
  constructor
  · intro hlen
    have hlen' : v.length = h * w := by rw [hlen, Nat.mul_comm]
    refine ⟨⟨w, h, v⟩, ?_, hlen', rfl, ?_, rfl⟩
    · rw [fromVec, if_pos hlen']
    · exact scanlineList_eq_data hlen'
  · intro hlen img
    have hlen' : ¬ v.length = h * w := by rw [Nat.mul_comm]; exact hlen
    rw [fromVec, if_neg hlen']
    intro hcon
    cases hcon

theorem from_vec_claim_witness :
    ∃ img : Image2D Nat, fromVec 2 3 [0, 1, 2, 3, 4, 5] = Except.ok img ∧
      img.wf ∧ img.dimensions = (2, 3) ∧
      img.scanlineList = [0, 1, 2, 3, 4, 5] ∧ img.intoRawVec = [0, 1, 2, 3, 4, 5] :=
  (from_vec_claim 2 3 [0, 1, 2, 3, 4, 5]).1 (by decide)

/-- C2: `blit_rect` returns a recoverable error exactly when the rect
sizes differ or either rect fails to fit its image, and on any such error
the destination is left entirely unmodified. -/
theorem blit_rect_error_claim {P : Type} [Inhabited P] (dst img : Image2D P)
    (srcRect dstRect : Rect) :
    ((∃ e, (blitRect dst srcRect dstRect img).1 = Except.error e) ↔
      (srcRect.size ≠ dstRect.size ∨ ¬ srcRect.fitsImage img ∨
        ¬ dstRect.fitsImage dst)) ∧
    (∀ e, (blitRect dst srcRect dstRect img).1 = Except.error e →
      (blitRect dst srcRect dstRect img).2 = dst) := by
  by_cases h1 : srcRect.size ≠ dstRect.size
  · rw [blitRect, if_pos h1]
    exact ⟨⟨fun _ => Or.inl h1, fun _ => ⟨_, rfl⟩⟩, fun _ _ => rfl⟩
  · by_cases h2 : ¬ srcRect.fitsImage img
    · rw [blitRect, if_neg h1, if_pos h2]
      exact ⟨⟨fun _ => Or.inr (Or.inl h2), fun _ => ⟨_, rfl⟩⟩, fun _ _ => rfl⟩
    · by_cases h3 : ¬ dstRect.fitsImage dst
      · rw [blitRect, if_neg h1, if_neg h2, if_pos h3]
        exact ⟨⟨fun _ => Or.inr (Or.inr h3), fun _ => ⟨_, rfl⟩⟩, fun _ _ => rfl⟩
      · rw [blitRect, if_neg h1, if_neg h2, if_neg h3]
        constructor
        · constructor
          · rintro ⟨e, he⟩
            cases he
          · intro hcon
            rcases hcon with hc | hc | hc
            · exact absurd hc h1
            · exact absurd hc h2
            · exact absurd hc h3
        · intro e he
          cases he

/-- C5: elementwise arithmetic fails with a dimension-mismatch error
exactly when the operands' dimensions differ, and otherwise produces an
owned buffer whose every cell is the operator applied to the
corresponding operand cells. -/
theorem image_op_claim {P : Type} (op : P → P → P) (a b : Image2D P)
    (hwa : a.wf) (hwb : b.wf) :
    ((∃ e, imageOp op a b = Except.error e) ↔ a.dimensions ≠ b.dimensions) ∧
    (∀ res, imageOp op a b = Except.ok res →
      res.dimensions = a.dimensions ∧ res.wf ∧
      ∀ x y, x < a.width → y < a.height →
        ∃ pa pb, a.getPixel? x y = some pa ∧ b.getPixel? x y = some pb ∧
          res.getPixel? x y = some (op pa pb)) := by
  by_cases hd : a.dimensions ≠ b.dimensions
  · rw [imageOp, if_pos hd]
    exact ⟨⟨fun _ => hd, fun _ => ⟨_, rfl⟩⟩, fun res hres => by cases hres⟩
  · rw [imageOp, if_neg hd]
    rw [not_not] at hd
    have hw : a.width = b.width := congrArg Prod.fst hd
    have hh : a.height = b.height := congrArg Prod.snd hd
    constructor
    · constructor
      · rintro ⟨e, he⟩
        cases he
      · intro hcon
        exact absurd hd hcon
    · intro res hres
      injection hres with hres
      subst hres
      have hzlen : (List.zipWith op a.data b.data).length = a.height * a.width := by
        rw [List.length_zipWith, hwa, hwb, ← hw, ← hh, Nat.min_self]
      refine ⟨rfl, hzlen, ?_⟩
      intro x y hx hy
      have hlta : y * a.width + x < a.data.length := by
        rw [hwa]; exact flat_lt hx hy
      have hltb : y * b.width + x < b.data.length := by
        rw [hwb]; exact flat_lt (hw ▸ hx) (hh ▸ hy)
      refine ⟨a.data.get ⟨y * a.width + x, hlta⟩,
        b.data.get ⟨y * b.width + x, hltb⟩,
        getPixel?_eq_getElem hx hy hlta,
        getPixel?_eq_getElem (hw ▸ hx) (hh ▸ hy) hltb, ?_⟩
      rw [Image2D.getPixel?]
      show (if x < a.width ∧ y < a.height then
        (List.zipWith op a.data b.data)[y * a.width + x]? else none) = _
      rw [if_pos ⟨hx, hy⟩, List.getElem?_zipWith,
        List.getElem?_eq_getElem hlta]
      have hbi : b.data[y * a.width + x]? = some (b.data.get ⟨y * b.width + x, hltb⟩) := by
        rw [hw, List.getElem?_eq_getElem hltb]
        rfl
      rw [hbi]
      rfl

theorem blit_rect_error_claim_witness :
    (∃ e, (blitRect (Image2D.new 2 2 (0 : Nat)) ⟨0, 0, 2, 2⟩ ⟨0, 0, 1, 1⟩
      (Image2D.new 2 2 (0 : Nat))).1 = Except.error e) ∧
    (blitRect (Image2D.new 2 2 (0 : Nat)) ⟨0, 0, 2, 2⟩ ⟨0, 0, 1, 1⟩
      (Image2D.new 2 2 (0 : Nat))).2 = Image2D.new 2 2 (0 : Nat) := by
  have hthm := blit_rect_error_claim (Image2D.new 2 2 (0 : Nat))
    (Image2D.new 2 2 (0 : Nat)) ⟨0, 0, 2, 2⟩ ⟨0, 0, 1, 1⟩
  have herr := hthm.1.mpr (Or.inl (by decide))
  exact ⟨herr, hthm.2 herr.choose herr.choose_spec⟩

theorem image_op_claim_witness :
    ∃ pa pb,
      (Image2D.mk 2 2 [1, 2, 3, 4]).getPixel? 1 1 = some pa ∧
      (Image2D.mk 2 2 [10, 20, 30, 40]).getPixel? 1 1 = some pb ∧
      (Image2D.mk 2 2 [11, 22, 33, 44]).getPixel? 1 1 = some (pa + pb) :=
  ((image_op_claim (· + ·) (Image2D.mk 2 2 [1, 2, 3, 4])
      (Image2D.mk 2 2 [10, 20, 30, 40]) (by decide) (by decide)).2
    (Image2D.mk 2 2 [11, 22, 33, 44]) (by rfl)).2.2 1 1 (by decide) (by decide)

/-- Reading a sub-image view at in-bounds local coordinates is reading the
parent at the offset absolute coordinates. -/
theorem subImage_getPixel? {P : Type} [Inhabited P] (img : Image2D P) (r : Rect)
    (lx ly : Nat) (hlx : lx < r.width) (hly : ly < r.height) :
    (img.subImage r).getPixel? lx ly
      = some (img.getPixel! (r.left + lx) (r.top + ly)) := by
  have hW : r.right + 1 - r.left = r.width := by
    rw [Rect.right]; omega
  have hH : r.bottom + 1 - r.top = r.height := by
    rw [Rect.bottom]; omega
  simp only [Image2D.subImage, Image2D.getPixel?, hW, hH]
  rw [if_pos ⟨hlx, hly⟩]
  exact grid_getElem? _ hlx hly

/-- Cells of a generated buffer are the generator values. -/
theorem generate_getPixel? {P : Type} (f : Nat → Nat → P) {w h x y : Nat}
    (hx : x < w) (hy : y < h) :
    (generate w h f).getPixel? x y = some (f x y) := by
  simp only [generate, Image2D.getPixel?]
  rw [if_pos ⟨hx, hy⟩]
  exact grid_getElem? _ hx hy

theorem generate_wf {P : Type} (f : Nat → Nat → P) (w h : Nat) :
    (generate w h f).wf := by
  simp only [generate, Image2D.wf]
  exact grid_length w h _

/-- C7: on a buffer built by `generate(w, h, f)`, an in-bounds sub-image
with origin `(ox, oy)` read at local index `(lx, ly)` yields
`f (ox+lx) (oy+ly)`; in particular `get_pixel(x, y)` on the generated
buffer is `f x y`. -/
theorem generate_sub_image_claim {P : Type} [Inhabited P] (f : Nat → Nat → P)
    (w h ox oy sw sh : Nat) (hfx : ox + sw ≤ w) (hfy : oy + sh ≤ h) :
    (∀ lx ly, lx < sw → ly < sh →
      ((generate w h f).subImage ⟨ox, oy, sw, sh⟩).getPixel? lx ly
        = some (f (ox + lx) (oy + ly))) ∧
    (∀ x y, x < w → y < h → (generate w h f).getPixel? x y = some (f x y)) := by
  constructor
  · intro lx ly hlx hly
    have h1 := subImage_getPixel? (generate w h f) ⟨ox, oy, sw, sh⟩ lx ly hlx hly
    dsimp only at h1
    rw [h1, getPixel!_eq (generate_getPixel? f (by omega) (by omega))]
  · intro x y hx hy
    exact generate_getPixel? f hx hy

theorem generate_sub_image_claim_witness :
    ((generate 5 5 (fun x y => 10 * x + y)).subImage ⟨1, 2, 3, 2⟩).getPixel? 2 1
      = some (10 * (1 + 2) + (2 + 1)) :=
  (generate_sub_image_claim (fun x y => 10 * x + y) 5 5 1 2 3 2
    (by decide) (by decide)).1 2 1 (by decide) (by decide)

/-- Writing through a mutable sub-image view at local `(lx, ly)` is the
parent-level `put_pixel` at the absolute coordinates: both sides set the
same flat offset of the shared storage. -/
theorem subImageMutPut_eq_putPixel {P : Type} (img : Image2D P) (r : Rect)
    (lx ly : Nat) (p : P) :
    img.subImageMutPut r lx ly p = img.putPixel (r.left + lx) (r.top + ly) p := rfl

/-- C8: a write through `sub_image_mut(rect)` at local `(lx, ly)` is
visible when re-reading the parent at `(rect.left+lx, rect.top+ly)`, and
any sequence of in-view writes leaves every parent cell outside `rect`
unchanged. -/
theorem sub_image_mut_claim {P : Type} (img : Image2D P) (r : Rect)
    (hwf : img.wf) (hfit : r.fitsImage img) :
    (∀ lx ly p, lx < r.width → ly < r.height →
      (img.subImageMutPut r lx ly p).getPixel? (r.left + lx) (r.top + ly) = some p) ∧
    (∀ ws : List ((Nat × Nat) × P),
      (∀ e ∈ ws, e.1.1 < r.width ∧ e.1.2 < r.height) →
      ∀ x y, x < img.width → y < img.height → ¬ r.contains x y →
        (img.subImageMutRun r ws).getPixel? x y = img.getPixel? x y) := by
  rcases hfit with ⟨hfw, hfh⟩
  constructor
  · intro lx ly p hlx hly
    rw [subImageMutPut_eq_putPixel]
    exact getPixel?_putPixel_self p hwf (by omega) (by omega)
  · intro ws hws x y hx hy hout
    have hrun : img.subImageMutRun r ws
        = writeList img (ws.map (fun e => ((r.left + e.1.1, r.top + e.1.2), e.2))) := by
      rw [Image2D.subImageMutRun, writeList, List.foldl_map]
      rfl
    rw [hrun]
    refine writeList_frame _ hx ?_
    intro e' he'
    rw [List.mem_map] at he'
    rcases he' with ⟨e, he, rfl⟩
    rcases hws e he with ⟨ha, hb⟩
    dsimp only
    refine ⟨by omega, by omega, ?_⟩
    intro hcon
    apply hout
    rw [Rect.contains, Rect.right, Rect.bottom]
    have h1 : r.left + e.1.1 = x := congrArg Prod.fst hcon
    have h2 : r.top + e.1.2 = y := congrArg Prod.snd hcon
    omega

/-- C3: after a successful `blit_rect`, the cell of `dst_rect` at local
scanline index `(lx, ly)` equals the cell of `src_rect` of the source at
the same local index — pairing is by iteration order of the two
rectangular iterators, not by geometric translation of absolute
coordinates. -/
theorem blit_rect_copy_claim {P : Type} [Inhabited P] (dst img : Image2D P)
    (srcRect dstRect : Rect) (hwd : dst.wf) (hwi : img.wf)
    (hok : (blitRect dst srcRect dstRect img).1 = Except.ok ())
    (lx ly : Nat) (hlx : lx < dstRect.width) (hly : ly < dstRect.height) :
    (blitRect dst srcRect dstRect img).2.getPixel?
        (dstRect.left + lx) (dstRect.top + ly)
      = img.getPixel? (srcRect.left + lx) (srcRect.top + ly) := by
  by_cases h1 : srcRect.size ≠ dstRect.size
  · rw [blitRect, if_pos h1] at hok
    cases hok
  · by_cases h2 : ¬ srcRect.fitsImage img
    · rw [blitRect, if_neg h1, if_pos h2] at hok
      cases hok
    · by_cases h3 : ¬ dstRect.fitsImage dst
      · rw [blitRect, if_neg h1, if_neg h2, if_pos h3] at hok
        cases hok
      · rw [blitRect, if_neg h1, if_neg h2, if_neg h3]
        rw [not_not] at h1 h2 h3
        have hsw : srcRect.width = dstRect.width := congrArg Prod.fst h1
        have hsh : srcRect.height = dstRect.height := congrArg Prod.snd h1
        rcases h2 with ⟨hsl, hst⟩
        rcases h3 with ⟨hdl, hdt⟩
        have hi : (img.rectIter srcRect)[ly * dstRect.width + lx]?
            = some (img.getPixel! (srcRect.left + lx) (srcRect.top + ly)) := by
          rw [Image2D.rectIter, List.getElem?_map, rectCoords]
          have hg : (grid srcRect.width srcRect.height
              (fun a b => (srcRect.left + a, srcRect.top + b)))[ly * dstRect.width + lx]?
              = some (srcRect.left + lx, srcRect.top + ly) := by
            rw [← hsw]
            exact grid_getElem? _ (by omega) (by omega)
          rw [hg]
          rfl
        have hc : (rectCoords dstRect)[ly * dstRect.width + lx]?
            = some (dstRect.left + lx, dstRect.top + ly) := by
          rw [rectCoords]
          exact grid_getElem? _ hlx hly
        have hmem : ((dstRect.left + lx, dstRect.top + ly),
            img.getPixel! (srcRect.left + lx) (srcRect.top + ly))
            ∈ ((img.rectIter srcRect).zip (rectCoords dstRect)).map
              (fun sd => (sd.2, sd.1)) :=
          List.mem_map.mpr ⟨_, List.getElem?_mem (zip_getElem?_eq_some hi hc), rfl⟩
        have hlen : (rectCoords dstRect).length ≤ (img.rectIter srcRect).length := by
          rw [Image2D.rectIter, List.length_map, rectCoords, rectCoords,
            grid_length, grid_length, hsw, hsh]
        have hcoords : ((((img.rectIter srcRect).zip (rectCoords dstRect)).map
            (fun sd => (sd.2, sd.1))).map Prod.fst) = rectCoords dstRect := by
          rw [List.map_map]
          exact List.map_snd_zip _ _ hlen
        have hnd : (((((img.rectIter srcRect).zip (rectCoords dstRect)).map
            (fun sd => (sd.2, sd.1))).map Prod.fst)).Nodup := by
          rw [hcoords, rectCoords]
          refine grid_nodup ?_
          intro a b a' b' ha hb ha' hb' he
          have e1 : dstRect.left + a = dstRect.left + a' := congrArg Prod.fst he
          have e2 : dstRect.top + b = dstRect.top + b' := congrArg Prod.snd he
          exact ⟨by omega, by omega⟩
        have hin : ∀ e ∈ ((img.rectIter srcRect).zip (rectCoords dstRect)).map
            (fun sd => (sd.2, sd.1)), e.1.1 < dst.width ∧ e.1.2 < dst.height := by
          intro e he
          rw [List.mem_map] at he
          rcases he with ⟨⟨sv, sc⟩, hsd, rfl⟩
          have hsnd := (List.of_mem_zip hsd).2
          rw [rectCoords, grid_mem] at hsnd
          rcases hsnd with ⟨a, b, ha, hb, he2⟩
          dsimp only
          rw [he2]
          exact ⟨by omega, by omega⟩
        have hfinal := writeList_getPixel _ hwd hnd hin hmem
        show (writeList dst (((img.rectIter srcRect).zip (rectCoords dstRect)).map
          (fun sd => (sd.2, sd.1)))).getPixel? (dstRect.left + lx) (dstRect.top + ly)
          = img.getPixel? (srcRect.left + lx) (srcRect.top + ly)
        rw [hfinal]
        rcases @getPixel?_is_some P img (srcRect.left + lx) (srcRect.top + ly) hwi
          (by omega) (by omega) with ⟨p, hp⟩
        rw [hp, getPixel!_eq hp]

theorem blit_rect_copy_claim_witness :
    (blitRect (Image2D.new 4 4 (0 : Nat)) ⟨1, 1, 2, 2⟩ ⟨0, 2, 2, 2⟩
      (generate 3 3 (fun x y => y * 3 + x))).2.getPixel? 1 2
      = (generate 3 3 (fun x y => y * 3 + x)).getPixel? 2 1 :=
  blit_rect_copy_claim (Image2D.new 4 4 (0 : Nat))
    (generate 3 3 (fun x y => y * 3 + x)) ⟨1, 1, 2, 2⟩ ⟨0, 2, 2, 2⟩
    (by decide) (by decide) rfl 1 0 (by decide) (by decide)

theorem sub_image_mut_claim_witness :
    ((Image2D.new 4 4 (0 : Nat)).subImageMutPut ⟨1, 1, 2, 2⟩ 1 0 7).getPixel? 2 1
      = some 7 ∧
    ((Image2D.new 4 4 (0 : Nat)).subImageMutRun ⟨1, 1, 2, 2⟩
      [((1, 0), 7), ((0, 1), 8)]).getPixel? 3 3
      = (Image2D.new 4 4 (0 : Nat)).getPixel? 3 3 :=
  ⟨(sub_image_mut_claim (Image2D.new 4 4 (0 : Nat)) ⟨1, 1, 2, 2⟩
      (by decide) (by decide)).1 1 0 7 (by decide) (by decide),
    (sub_image_mut_claim (Image2D.new 4 4 (0 : Nat)) ⟨1, 1, 2, 2⟩
      (by decide) (by decide)).2 [((1, 0), 7), ((0, 1), 8)] (by decide)
      3 3 (by decide) (by decide) (by decide)⟩

/-! Helper lemmas about `chunks` and the pixel-building loop of
`from_raw_vec`. -/

theorem chunksGo_length {α : Type} {n : Nat} (hn : 0 < n) :
    ∀ (fuel : Nat) (l : List α), l.length ≤ fuel →
      (chunksGo fuel n l).length = (l.length + n - 1) / n
  | 0, l, hl => by
    have hnil : l = [] := List.eq_nil_of_length_eq_zero (by omega)
    subst hnil
    simp [chunksGo]
    exact (Nat.div_eq_of_lt (by omega)).symm
  | fuel + 1, [], _ => by
    simp [chunksGo]
    exact (Nat.div_eq_of_lt (by omega)).symm
  | fuel + 1, a :: l', hl => by
    rw [chunksGo, if_neg (by omega)]
    have hble : (List.drop n (a :: l')).length ≤ fuel := by
      rw [List.length_drop]
      simp only [List.length_cons] at hl ⊢
      omega
    rw [List.length_cons, chunksGo_length hn fuel _ hble, List.length_drop,
      List.length_cons]
    have e2 : l'.length + 1 + n - 1 = (l'.length + 1 - 1) + n * 1 := by omega
    rw [e2, Nat.add_mul_div_left _ _ hn]
    by_cases hc : n < l'.length + 1
    · have e1 : l'.length + 1 - n + n - 1 = l'.length + 1 - 1 := by omega
      rw [e1]
    · have e1 : l'.length + 1 - n + n - 1 = n - 1 := by omega
      have e3 : l'.length + 1 - 1 = l'.length := by omega
      rw [e1, e3, Nat.div_eq_of_lt (by omega), Nat.div_eq_of_lt (by omega)]

theorem chunksGo_dvd {α : Type} {n : Nat} (hn : 0 < n) :
    ∀ (fuel : Nat) (l : List α), l.length ≤ fuel →
      ((∀ c ∈ chunksGo fuel n l, n ≤ c.length) ↔ n ∣ l.length)
  | 0, l, hl => by
    have hnil : l = [] := List.eq_nil_of_length_eq_zero (by omega)
    subst hnil
    simp [chunksGo]
  | fuel + 1, [], _ => by
    simp [chunksGo]
  | fuel + 1, a :: l', hl => by
    rw [chunksGo, if_neg (by omega)]
    have hble : (List.drop n (a :: l')).length ≤ fuel := by
      rw [List.length_drop]
      simp only [List.length_cons] at hl ⊢
      omega
    rw [List.forall_mem_cons]
    by_cases hc : l'.length + 1 < n
    · constructor
      · intro hcon
        have := hcon.1
        rw [List.length_take, List.length_cons] at this
        omega
      · intro hdvd
        exfalso
        have h0 := Nat.eq_zero_of_dvd_of_lt hdvd (by rw [List.length_cons]; omega)
        rw [List.length_cons] at h0
        omega
    · have htake : n ≤ (List.take n (a :: l')).length := by
        rw [List.length_take, List.length_cons]
        omega
      have hrec := chunksGo_dvd hn fuel (List.drop n (a :: l')) hble
      rw [List.length_drop, List.length_cons] at hrec
      constructor
      · intro hcon
        have hd := hrec.mp hcon.2
        have he : l'.length + 1 = (l'.length + 1 - n) + n := by omega
        rw [List.length_cons, he]
        exact Nat.dvd_add hd (Nat.dvd_refl n)
      · intro hdvd
        rw [List.length_cons] at hdvd
        exact ⟨htake, hrec.mpr (Nat.dvd_sub' hdvd (Nat.dvd_refl n))⟩

theorem mapRun_ok_of_all {α : Type} {n : Nat} :
    ∀ cs : List (List α), (∀ c ∈ cs, n ≤ c.length) →
      mapRun (pixFromSlice n) cs = RunResult.ok (cs.map (List.take n))
  | [], _ => rfl
  | c :: cs, h => by
    have hc : ¬ c.length < n := by
      have := h c (List.mem_cons_self c cs)
      omega
    rw [mapRun, pixFromSlice, if_neg hc,
      mapRun_ok_of_all cs (fun c' hm => h c' (List.mem_cons_of_mem _ hm))]
    rfl

theorem mapRun_fault_of_exists {α : Type} {n : Nat} :
    ∀ cs : List (List α), (∃ c ∈ cs, c.length < n) →
      mapRun (pixFromSlice n) cs = RunResult.fault
  | [], h => by
    rcases h with ⟨c, hc, _⟩
    cases hc
  | c :: cs, h => by
    by_cases hc : c.length < n
    · rw [mapRun, pixFromSlice, if_pos hc]
    · rcases h with ⟨c', hc', hlen⟩
      have hc'' : c' ∈ cs := by
        rcases List.mem_cons.mp hc' with he | hm
        · subst he
          omega
        · exact hm
      rw [mapRun, pixFromSlice, if_neg hc, mapRun_fault_of_exists cs ⟨c', hc'', hlen⟩]

/-- C1 (amended): `from_raw_vec(w, h, v)` returns a recoverable error iff
the chunk count `⌈len(v)/N⌉` differs from `w*h`; when the chunk count
matches but `len(v)` is not an exact multiple of `N`, the short final
chunk makes `Pixel::from_slice` panic instead of erroring; it succeeds
exactly when `len(v) = N*w*h`. -/
theorem from_raw_vec_claim {α : Type} (n w h : Nat) (v : List α) (hn : 0 < n) :
    (fromRawVec n w h v = RunResult.err ↔ (v.length + n - 1) / n ≠ w * h) ∧
    (fromRawVec n w h v = RunResult.fault ↔
      ((v.length + n - 1) / n = w * h ∧ ¬ n ∣ v.length)) ∧
    ((∃ img, fromRawVec n w h v = RunResult.ok img) ↔ v.length = n * (w * h)) := by
  have hcl : (chunksN n v).length = (v.length + n - 1) / n :=
    chunksGo_length hn v.length v (Nat.le_refl _)
  by_cases hceil : (v.length + n - 1) / n = w * h
  · by_cases hdvd : n ∣ v.length
    · have hall : ∀ c ∈ chunksN n v, n ≤ c.length :=
        (chunksGo_dvd hn v.length v (Nat.le_refl _)).mpr hdvd
      have hok : fromRawVec n w h v
          = RunResult.ok ⟨w, h, (chunksN n v).map (List.take n)⟩ := by
        rw [fromRawVec, if_pos (by rw [hcl]; exact hceil), mapRun_ok_of_all _ hall]
        dsimp only
        rw [if_pos (by rw [List.length_map, hcl, hceil, Nat.mul_comm])]
      have hlen : v.length = n * (w * h) := by
        rcases hdvd with ⟨k, hk⟩
        have hck : (v.length + n - 1) / n = k := by
          rw [hk]
          have e : n * k + n - 1 = n * k + (n - 1) := by omega
          rw [e, Nat.mul_add_div hn, Nat.div_eq_of_lt (by omega), Nat.add_zero]
        have hkwh : k = w * h := by rw [← hck]; exact hceil
        rw [hk, hkwh]
      refine ⟨⟨fun hcon => ?_, fun hcon => absurd hceil hcon⟩,
        ⟨fun hcon => ?_, fun hcon => absurd hdvd hcon.2⟩,
        ⟨fun _ => hlen, fun _ => ⟨_, hok⟩⟩⟩
      · rw [hok] at hcon
        cases hcon
      · rw [hok] at hcon
        cases hcon
    · have hfault : fromRawVec n w h v = RunResult.fault := by
        rw [fromRawVec, if_pos (by rw [hcl]; exact hceil)]
        have hex : ∃ c ∈ chunksN n v, c.length < n := by
          by_contra hno
          push_neg at hno
          exact hdvd ((chunksGo_dvd hn v.length v (Nat.le_refl _)).mp hno)
        rw [mapRun_fault_of_exists _ hex]
      refine ⟨⟨fun hcon => ?_, fun hcon => absurd hceil hcon⟩,
        ⟨fun _ => ⟨hceil, hdvd⟩, fun _ => hfault⟩,
        ⟨fun hcon => ?_, fun hlen => ?_⟩⟩
      · rw [hfault] at hcon
        cases hcon
      · rcases hcon with ⟨img, himg⟩
        rw [hfault] at himg
        cases himg
      · exact absurd ⟨w * h, hlen⟩ hdvd
  · have herr : fromRawVec n w h v = RunResult.err := by
      rw [fromRawVec, if_neg (by rw [hcl]; exact hceil)]
    refine ⟨⟨fun _ => hceil, fun _ => herr⟩,
      ⟨fun hcon => ?_, fun hcon => absurd hcon.1 hceil⟩,
      ⟨fun hcon => ?_, fun hlen => ?_⟩⟩
    · rw [herr] at hcon
      cases hcon
    · rcases hcon with ⟨img, himg⟩
      rw [herr] at himg
      cases himg
    · exfalso
      apply hceil
      rw [hlen]
      have e : n * (w * h) + n - 1 = n * (w * h) + (n - 1) := by omega
      rw [e, Nat.mul_add_div hn, Nat.div_eq_of_lt (by omega), Nat.add_zero]

/-- C1 counterexample: with 3 channels, a raw slice of length 5 and
`w*h = 2`, the raw length is not a multiple of the channel count, yet
`from_raw_vec` does not return a recoverable error — the chunk-count check
passes (⌈5/3⌉ = 2) and `Pixel::from_slice` panics on the short final
chunk. -/
theorem from_raw_vec_counterexample :
    ¬ (3 ∣ ([0, 1, 2, 3, 4] : List Nat).length) ∧
    fromRawVec 3 2 1 ([0, 1, 2, 3, 4] : List Nat) = RunResult.fault ∧
    fromRawVec 3 2 1 ([0, 1, 2, 3, 4] : List Nat) ≠ RunResult.err := by
  refine ⟨?_, by decide, by decide⟩
  intro hdvd
  rcases hdvd with ⟨k, hk⟩
  simp only [List.length_cons, List.length_nil] at hk
  omega

/-- C9 (amended): on an image with positive dimensions, for a non-empty
rect, `translate_rect(rect, dx, dy)` returns `None` iff the translated
rectangle does not intersect the image bounds at all, and otherwise
returns the clipped intersection of the translated rectangle with the
image bounds. -/
theorem translate_rect_claim (w h : Nat) (r : Rect) (dx dy : Int)
    (hw : 0 < w) (hh : 0 < h) (hrw : 0 < r.width) (hrh : 0 < r.height) :
    (translateRect w h r dx dy = none ↔ ¬ rectIntersects w h r dx dy) ∧
    (∀ r', translateRect w h r dx dy = some r' → r' = clippedRect w h r dx dy) := by
  have hrr : (r.right : Int) = (r.left : Int) + (r.width : Int) - 1 := by
    rw [Rect.right]; omega
  have hbb : (r.bottom : Int) = (r.top : Int) + (r.height : Int) - 1 := by
    rw [Rect.bottom]; omega
  simp only [translateRect]
  by_cases hcond : (r.left : Int) + dx < (w : Int) ∧ (r.top : Int) + dy < (h : Int) ∧
      (r.right : Int) + dx ≥ 0 ∧ (r.bottom : Int) + dy ≥ 0
  · rw [if_pos hcond]
    constructor
    · refine ⟨fun hcon => Option.noConfusion hcon, fun hni => absurd ?_ hni⟩
      refine ⟨max ((r.left : Int) + dx) 0, max ((r.top : Int) + dy) 0, ?_⟩
      omega
    · intro r' hr'
      injection hr' with hr'
      subst hr'
      simp only [clippedRect, Rect.mk.injEq]
      by_cases hxl : (r.left : Int) + dx < 0
      · by_cases hyt : (r.top : Int) + dy < 0
        · rw [if_pos hxl, if_pos hyt]
          refine ⟨by omega, by omega, by omega, by omega⟩
        · rw [if_pos hxl, if_neg hyt]
          refine ⟨by omega, by omega, by omega, by omega⟩
      · by_cases hyt : (r.top : Int) + dy < 0
        · rw [if_neg hxl, if_pos hyt]
          refine ⟨by omega, by omega, by omega, by omega⟩
        · rw [if_neg hxl, if_neg hyt]
          refine ⟨by omega, by omega, by omega, by omega⟩
  · rw [if_neg hcond]
    constructor
    · refine ⟨fun _ => ?_, fun _ => rfl⟩
      rintro ⟨px, py, h1, h2, h3, h4, h5, h6, h7, h8⟩
      exact hcond ⟨by omega, by omega, by omega, by omega⟩
    · intro r' hr'
      cases hr'

/-- C9 counterexample: the claim quantifies over every buffer, but on a
buffer of width 0 (constructible through `from_vec 0 5 []`) the code can
return `Some` of a degenerate zero-width rect even though the translated
rectangle intersects no cell of the (empty) image bounds, contradicting
the claimed "None iff no intersection". -/
theorem translate_rect_counterexample :
    fromVec 0 5 ([] : List Nat) = Except.ok ⟨0, 5, []⟩ ∧
    translateRect 0 5 ⟨0, 0, 2, 1⟩ (-1) 0 = some ⟨0, 0, 0, 1⟩ ∧
    ¬ rectIntersects 0 5 ⟨0, 0, 2, 1⟩ (-1) 0 := by
  refine ⟨rfl, by decide, ?_⟩
  rintro ⟨px, py, h1, h2, h3, h4, h5, h6, h7, h8⟩
  simp only [Nat.cast_zero] at h6
  omega

theorem translate_rect_claim_witness :
    ((translateRect 5 5 ⟨1, 1, 3, 3⟩ (-2) (-2) = none ↔
        ¬ rectIntersects 5 5 ⟨1, 1, 3, 3⟩ (-2) (-2)) ∧
      (∀ r', translateRect 5 5 ⟨1, 1, 3, 3⟩ (-2) (-2) = some r' →
        r' = clippedRect 5 5 ⟨1, 1, 3, 3⟩ (-2) (-2))) ∧
    translateRect 5 5 ⟨1, 1, 3, 3⟩ (-2) (-2) = some ⟨0, 0, 2, 2⟩ ∧
    translateRect 5 5 ⟨1, 1, 3, 3⟩ (-4) (-4) = none ∧
    translateRect 5 5 ⟨1, 1, 3, 3⟩ 2 2 = some ⟨3, 3, 2, 2⟩ :=
  ⟨translate_rect_claim 5 5 ⟨1, 1, 3, 3⟩ (-2) (-2)
      (by decide) (by decide) (by decide) (by decide),
    by decide, by decide, by decide⟩

theorem from_raw_vec_claim_witness :
    ∃ img, fromRawVec 3 2 2 ([0, 1, 2, 3, 4, 5, 6, 7, 8, 9, 10, 11] : List Nat)
      = RunResult.ok img :=
  (from_raw_vec_claim 3 2 2 [0, 1, 2, 3, 4, 5, 6, 7, 8, 9, 10, 11]
    (by decide)).2.2.mpr (by decide)

end Ndimage
